import Mathlib

/-!
Verification of the CHIS Mie-scattering module (`MieScattering.py`) against its
natural-language specification.  The Python/numpy code is shallowly embedded:
float arithmetic becomes exact real/complex arithmetic, numpy arrays become
lists or functions on `Fin n` / `ZMod n`, raised exceptions become
`Except.error`, and the external special-function library (scipy) is
represented by a record of abstract function parameters, as the spec treats
special-function evaluation as a provided numerical primitive library.
-/

noncomputable section

namespace Chis

/-! ## Definitions -/

/-- The truncation order `l_max = ceil(2*pi*a/lambDa + 4*(2*pi*a/lambDa)**(1/3) + 2)`
from `get_order` (MieScattering.py line 33). -/
def l_max (a lambDa : ℝ) : ℤ :=
  ⌈2 * Real.pi * a / lambDa + 4 * (2 * Real.pi * a / lambDa) ^ ((1:ℝ)/3) + 2⌉

/-- `get_order` (MieScattering.py lines 17-38): `np.arange(0, l_max+1, 1)`,
the integer sequence `0, 1, ..., l_max`.  For nonpositive `l_max` the
`arange` clamp is modelled by `Int.toNat`. -/
def get_order (a lambDa : ℝ) : List ℤ :=
  (List.range ((l_max a lambDa).toNat + 1)).map fun (i : ℕ) => (i : ℤ)

/-- The scipy special-function primitives used by `MieScattering.py`:
spherical Bessel functions of the first/second kind and their derivatives
(`sp.special.spherical_jn` / `spherical_yn`, taking a complex argument),
Legendre polynomial evaluation (`sp.special.eval_legendre`), the ordinary
Bessel function (`sp.special.jv`, used at orders 0 and 1 with real argument),
and the zeros of the order-0 Bessel function (`sp.special.jn_zeros(0, n)`). -/
structure SpecialFns where
  sphJn : ℤ → ℂ → ℂ
  sphJnDeriv : ℤ → ℂ → ℂ
  sphYn : ℤ → ℂ → ℂ
  sphYnDeriv : ℤ → ℂ → ℂ
  evalLegendre : ℤ → ℝ → ℝ
  besselJ : ℕ → ℝ → ℝ
  j0Zeros : ℕ → List ℝ

/-- `coeff_b` (MieScattering.py lines 41-84), elementwise over the order
vector `l`: spherical Bessel terms at `k*a` and `k*n*a`, the spherical Hankel
function of the first kind `h = j + y*1j` and its derivative, and
`B = (bi - ci) / (di - ei)` with `bi = jka*jkna_p*n`, `ci = jkna*jka_p`,
`di = jkna*hka_p`, `ei = hka*jkna_p*n`. -/
def coeff_b (S : SpecialFns) (l : List ℤ) (k : ℝ) (n : ℂ) (a : ℝ) : List ℂ :=
  l.map fun li =>
    let jka := S.sphJn li ((k : ℂ) * a)
    let jka_p := S.sphJnDeriv li ((k : ℂ) * a)
    let jkna := S.sphJn li ((k : ℂ) * n * a)
    let jkna_p := S.sphJnDeriv li ((k : ℂ) * n * a)
    let yka := S.sphYn li ((k : ℂ) * a)
    let yka_p := S.sphYnDeriv li ((k : ℂ) * a)
    let hka := jka + yka * Complex.I
    let hka_p := jka_p + yka_p * Complex.I
    let bi := jka * jkna_p * n
    let ci := jkna * jka_p
    let di := jkna * hka_p
    let ei := hka * jkna_p * n
    (bi - ci) / (di - ei)

/-- The B-coefficient formula exactly as the specification words it:
`(j(ka)*j'(kna)*n - j(kna)*j'(ka)) / (j(kna)*h'(ka) - h(ka)*j'(kna)*n)`
with `h = j + i*y` the spherical Hankel function of the first kind. -/
def coeff_b_spec_formula (S : SpecialFns) (k : ℝ) (n : ℂ) (a : ℝ) (li : ℤ) : ℂ :=
  (S.sphJn li ((k : ℂ) * a) * S.sphJnDeriv li ((k : ℂ) * n * a) * n
      - S.sphJn li ((k : ℂ) * n * a) * S.sphJnDeriv li ((k : ℂ) * a)) /
  (S.sphJn li ((k : ℂ) * n * a)
        * (S.sphJnDeriv li ((k : ℂ) * a) + Complex.I * S.sphYnDeriv li ((k : ℂ) * a))
      - (S.sphJn li ((k : ℂ) * a) + Complex.I * S.sphYn li ((k : ℂ) * a))
        * S.sphJnDeriv li ((k : ℂ) * n * a) * n)

/-- A real-valued canvas: either a 2-D `(res, res)` map or a 1-D radial line,
matching the two shapes `horizontal_canvas` (and `bandpass_filter`) return. -/
inductive Canvas where
  | one : List ℝ → Canvas
  | two : List (List ℝ) → Canvas

/-- A complex per-order tensor, `(samples, orders)` or `(res, res, orders)`. -/
inductive TensorArr where
  | one : List (List ℂ) → TensorArr
  | two : List (List (List ℂ)) → TensorArr

/-- A real per-order tensor (Legendre values). -/
inductive RTensor where
  | one : List (List ℝ) → RTensor
  | two : List (List (List ℝ)) → RTensor

/-- A complex field, 1-D or 2-D. -/
inductive FieldArr where
  | one : List ℂ → FieldArr
  | two : List (List ℂ) → FieldArr

/-- A numpy argument that is either a scalar or a 1-D vector; used to model
the `np.isscalar` check in `asymptotic_hankel`. -/
inductive OrderArg where
  | scalar : ℤ → OrderArg
  | vector : List ℤ → OrderArg

/-- Coerce a real per-order tensor to a complex one (numpy upcasting when a
real array is multiplied into a complex expression). -/
def RTensor.toC : RTensor → TensorArr
  | .one A => .one (A.map fun r => r.map fun (x : ℝ) => (x : ℂ))
  | .two A => .two (A.map fun M => M.map fun r => r.map fun (x : ℝ) => (x : ℂ))

/-- `np.linspace(-halfgrid, halfgrid, res)` sample `i` (step
`(stop-start)/(res-1)`; all callers use `res >= 2`, where this matches
numpy's endpoint convention). -/
def linspaceAt (halfgrid : ℝ) (res i : ℕ) : ℝ :=
  -halfgrid + i * (2 * halfgrid / (res - 1 : ℕ))

/-- The 1-D branch of `horizontal_canvas` (MieScattering.py lines 132-141):
`center = int(np.ceil(res/2))`, `gx = np.linspace(-halfgrid, halfgrid, res)[:center+1]`,
`gy = gx[0]`, `rMag = np.sqrt(gx**2 + gy**2 + z**2)`.  For a natural `res`,
`int(np.ceil(res/2)) = (res+1)/2` in natural division, and the Python slice
clamp is `List.take`. -/
def horizontal_canvas1 (res : ℕ) (fov z : ℝ) : List ℝ :=
  let halfgrid : ℝ := (⌈fov / 2⌉ : ℤ)
  let center : ℕ := (res + 1) / 2
  let gx := (List.range res).map (linspaceAt halfgrid res)
  (gx.take (center + 1)).map fun xv =>
    Real.sqrt (xv ^ 2 + (linspaceAt halfgrid res 0) ^ 2 + z ^ 2)

/-- The 2-D branch of `horizontal_canvas` (lines 115-130): meshgrid of the
full linspace against itself, constant `z` plane, and the per-pixel magnitude
`sqrt(x^2 + y^2 + z^2)`.  In `np.meshgrid(gx, gy)`, `x` varies along columns
and `y` along rows. -/
def horizontal_canvas2 (res : ℕ) (fov z : ℝ) : List (List ℝ) :=
  let halfgrid : ℝ := (⌈fov / 2⌉ : ℤ)
  (List.range res).map fun i =>
    (List.range res).map fun j =>
      Real.sqrt ((linspaceAt halfgrid res j) ^ 2
        + (linspaceAt halfgrid res i) ^ 2 + z ^ 2)

/-- `horizontal_canvas` (lines 86-146) with its dimension dispatch; an
invalid `dimention` raises `ValueError`. -/
def horizontal_canvas (res : ℕ) (fov z : ℝ) (dimention : ℕ) :
    Except String Canvas :=
  if dimention = 2 then Except.ok (Canvas.two (horizontal_canvas2 res fov z))
  else if dimention = 1 then Except.ok (Canvas.one (horizontal_canvas1 res fov z))
  else Except.error ("The dimention of the canvas is invalid!")

/-- `pad` (lines 148-165): `(res*(padding*2+1), fov*(padding*2+1))`. -/
def pad (res fov padding : ℕ) : ℕ × ℕ :=
  (res * (padding * 2 + 1), fov * (padding * 2 + 1))

/-- `crop_field` (lines 579-604): centered crop to `res x res` starting at
`int(np.fix(imsize/2) - np.floor(res/2))`.  For the sizes the claims use the
start index is nonnegative, so Python's slice `E[start:start+res]` is
`(List.drop start).take res` on each axis; entries are dtype-generic. -/
def crop_field {α : Type} (res : ℕ) (E : List (List α)) : List (List α) :=
  let imsize := E.length
  let startIdx : ℤ := (imsize / 2 : ℕ) - (res / 2 : ℕ)
  let s := startIdx.toNat
  ((E.drop s).take res).map fun row => (row.drop s).take res

/-- `np.fft.fftfreq(n, d)` sample `i`: frequencies `0, 1, ..., ceil(n/2)-1`
then `-(n/2), ..., -1`, all divided by `n*d`. -/
def fftfreqAt (n : ℕ) (d : ℝ) (i : ℕ) : ℝ :=
  (if i < (n + 1) / 2 then (i : ℝ) else (i : ℝ) - n) / (n * d)

/-- `asymptotic_hankel` (lines 167-198): the large-argument form
`exp(1j*(x - l*pi/2))/(1j*x)` for every order in `l`; a scalar `l` raises
`ValueError`.  The order axis is indexed by the entries of `l`; every caller
passes the contiguous vector `0..l_max`, for which value- and
position-indexing of `hl_asym[..., i]` agree. -/
def asymptotic_hankel (x : Canvas) (l : OrderArg) : Except String TensorArr :=
  match l with
  | .scalar _ => Except.error ("Please set l as an order vector, not scalar!")
  | .vector ls =>
    match x with
    | .one xs => Except.ok (.one (xs.map fun (xv : ℝ) => ls.map fun (li : ℤ) =>
        Complex.exp (Complex.I * ((xv : ℂ) - (li : ℂ) * (Real.pi : ℂ) / 2))
          / (Complex.I * (xv : ℂ))))
    | .two M => Except.ok (.two (M.map fun row => row.map fun (xv : ℝ) =>
        ls.map fun (li : ℤ) =>
          Complex.exp (Complex.I * ((xv : ℂ) - (li : ℂ) * (Real.pi : ℂ) / 2))
            / (Complex.I * (xv : ℂ))))

/-- The 1-D branch of `asymptotic_legendre` (lines 226-246): the first
`int(res/2)+1` Fourier frequencies, `fy = fx[0]`, and per frequency either a
zero row (evanescent mask `kx^2+ky^2 > 1`) or the Legendre values at
`cos_theta = sqrt(1 - (kx^2+ky^2))`.  The in-place masking of `kxky`,
`cos_theta` and `pl_cos_theta` collapses to this per-entry conditional. -/
def asymptotic_legendre1 (S : SpecialFns) (res : ℕ) (fov : ℝ) (l : List ℤ) :
    List (List ℝ) :=
  let fx := ((List.range res).map (fftfreqAt res (fov / res))).take (res / 2 + 1)
  let fy := fx.headD 0
  fx.map fun f =>
    let kxky := f ^ 2 + fy ^ 2
    if 1 < kxky then l.map fun _ => 0
    else l.map fun li => S.evalLegendre li (Real.sqrt (1 - kxky))

/-- The 2-D branch of `asymptotic_legendre` (lines 216-246). -/
def asymptotic_legendre2 (S : SpecialFns) (res : ℕ) (fov : ℝ) (l : List ℤ) :
    List (List (List ℝ)) :=
  (List.range res).map fun i =>
    (List.range res).map fun j =>
      let kxky := (fftfreqAt res (fov / res) j) ^ 2 + (fftfreqAt res (fov / res) i) ^ 2
      if 1 < kxky then l.map fun _ => 0
      else l.map fun li => S.evalLegendre li (Real.sqrt (1 - kxky))

/-- `asymptotic_legendre` (lines 200-248) with its dimension dispatch. -/
def asymptotic_legendre (S : SpecialFns) (res : ℕ) (fov : ℝ) (l : List ℤ)
    (dimention : ℕ) : Except String RTensor :=
  if dimention = 2 then Except.ok (.two (asymptotic_legendre2 S res fov l))
  else if dimention = 1 then Except.ok (.one (asymptotic_legendre1 S res fov l))
  else Except.error ("The dimention of the simulation is invalid!")

/-- `near_filed_legendre` (lines 250-286, source spelling kept): exact
direction cosine `dot(rNorm, k_dir)` on the 2-D grid, then Legendre values.
Lean's total `x/0 = 0` stands in for the `0/0 -> nan` at a zero-radius pixel;
no claim evaluates that pixel. -/
def near_filed_legendre (S : SpecialFns) (res : ℕ) (fov z : ℝ)
    (k_dir : ℝ × ℝ × ℝ) (l : List ℤ) : List (List (List ℝ)) :=
  let halfgrid : ℝ := (⌈fov / 2⌉ : ℤ)
  (List.range res).map fun i =>
    (List.range res).map fun j =>
      let x := linspaceAt halfgrid res j
      let y := linspaceAt halfgrid res i
      let rMag := Real.sqrt (x ^ 2 + y ^ 2 + z ^ 2)
      let cosT := (x * k_dir.1 + y * k_dir.2.1 + z * k_dir.2.2) / rMag
      l.map fun li => S.evalLegendre li cosT

/-- Scale every entry of a canvas (used for `kr = kMag * rMag`). -/
def scaleCanvas (c : ℝ) : Canvas → Canvas
  | .one v => .one (v.map fun r => c * r)
  | .two M => .two (M.map fun row => row.map fun r => c * r)

/-- The exact spherical Hankel tensor of the near-field branch (lines
333-335): `spherical_jn(l, kr) + spherical_yn(l, kr)*1j` per order. -/
def sphHankelTensor (S : SpecialFns) (kr : Canvas) (ls : List ℤ) : TensorArr :=
  match kr with
  | .one v => .one (v.map fun (xv : ℝ) => ls.map fun (li : ℤ) =>
      S.sphJn li (xv : ℂ) + S.sphYn li (xv : ℂ) * Complex.I)
  | .two M => .two (M.map fun row => row.map fun (xv : ℝ) => ls.map fun (li : ℤ) =>
      S.sphJn li (xv : ℂ) + S.sphYn li (xv : ℂ) * Complex.I)

/-- Shape guard for a 1-D stack of order rows. -/
def rowsMatch (A B : List (List ℂ)) : Bool :=
  (A.zip B).all fun p => p.1.length == p.2.length

/-- Elementwise product of two `(samples, orders)` arrays with numpy's
shape check (general broadcasting is not modelled; no claim relies on it). -/
def tmul1 (A B : List (List ℂ)) : Except String (List (List ℂ)) :=
  if A.length = B.length ∧ rowsMatch A B = true then
    Except.ok (List.zipWith (fun r s => List.zipWith (fun x y => x * y) r s) A B)
  else Except.error ("operands could not be broadcast together")

/-- Elementwise product of two `(res, res, orders)` arrays with numpy's
shape check. -/
def tmul2 (A B : List (List (List ℂ))) : Except String (List (List (List ℂ))) :=
  if A.length = B.length ∧
      ((A.zip B).all fun p => p.1.length == p.2.length
        && ((p.1.zip p.2).all fun q => q.1.length == q.2.length)) = true then
    Except.ok (List.zipWith (fun M N =>
      List.zipWith (fun r s => List.zipWith (fun x y => x * y) r s) M N) A B)
  else Except.error ("operands could not be broadcast together")

/-- Elementwise product of two per-order tensors; mixed dimensionalities do
not broadcast for the shapes this module produces. -/
def tmul : TensorArr → TensorArr → Except String TensorArr
  | .one A, .one B => (tmul1 A B).map TensorArr.one
  | .two A, .two B => (tmul2 A B).map TensorArr.two
  | _, _ => Except.error ("operands could not be broadcast together")

/-- Multiply a per-order tensor along its last (order) axis by a vector,
with numpy's trailing-axis shape check: models both `* alpha` and `* B`. -/
def scaleOrders (A : TensorArr) (v : List ℂ) : Except String TensorArr :=
  match A with
  | .one A =>
    if (A.all fun r => r.length == v.length) = true then
      Except.ok (.one (A.map fun r => List.zipWith (fun x y => x * y) r v))
    else Except.error ("operands could not be broadcast together")
  | .two A =>
    if (A.all fun M => M.all fun r => r.length == v.length) = true then
      Except.ok (.two (A.map fun M => M.map fun r =>
        List.zipWith (fun x y => x * y) r v))
    else Except.error ("operands could not be broadcast together")

/-- `np.sum(..., axis=-1)`: contract the order axis. -/
def sumLast : TensorArr → FieldArr
  | .one A => .one (A.map List.sum)
  | .two A => .two (A.map fun M => M.map List.sum)

/-- Multiply a field by a real scalar (the `* scale` step). -/
def scaleField (scale : ℝ) : FieldArr → FieldArr
  | .one v => .one (v.map fun c => c * (scale : ℂ))
  | .two M => .two (M.map fun r => r.map fun c => c * (scale : ℂ))

/-- The multipole prefactor `alpha = (2*l + 1) * 1j**l` (line 340). -/
def alphaTerm (ls : List ℤ) : List ℂ :=
  ls.map fun li => ((2 * li + 1 : ℤ) : ℂ) * Complex.I ^ li

/-- `scatter_matrix` (lines 289-344): order vector, canvas, `kr = kMag*rMag`,
far/near basis dispatch (an unsupported option raises `ValueError`), then
`hlkr * pl_cos_theta * alpha`.  The canvas is built before the option check,
exactly as in the source. -/
def scatter_matrix (S : SpecialFns) (res : ℕ) (fov z a lambDa : ℝ)
    (dimention : ℕ) (opt : String) (k_dir : ℝ × ℝ × ℝ) :
    Except String TensorArr := do
  let l := get_order a lambDa
  let rMag ← horizontal_canvas res fov z dimention
  let kr := scaleCanvas (2 * Real.pi / lambDa) rMag
  let basis ←
    if opt = "far" then do
      let pl ← asymptotic_legendre S res fov l dimention
      let hlkr ← asymptotic_hankel kr (.vector l)
      pure (hlkr, pl.toC)
    else if opt = "near" then
      pure (sphHankelTensor S kr l,
        (RTensor.two (near_filed_legendre S res fov z k_dir l)).toC)
    else Except.error ("Please specify far field or near field!")
  let sc ← tmul basis.1 basis.2
  scaleOrders sc (alphaTerm l)

/-- `far_field` (lines 378-423): contract the scatter tensor with the B
coefficients, scale, and for 2-D apply `np.fft.ifftshift` (modelled below on
lists); 1-D is returned unshifted.  `k_dir` is unused on the far branch
(Python default `None` stands in as `(0,0,0)`); a `dimention` outside `{1,2}`
already fails inside `scatter_matrix`, so the final match's catch-all (the
Python `UnboundLocalError` path) is unreachable. -/
def ifftshiftL (M : List (List ℂ)) : List (List ℂ) :=
  let n := M.length
  (List.range n).map fun i =>
    let row := M.getD ((i + n / 2) % n) []
    let m := row.length
    (List.range m).map fun j => row.getD ((j + m / 2) % m) 0

/-- See `ifftshiftL`; this is `far_field` itself. -/
def far_field (S : SpecialFns) (res : ℕ) (fov z a : ℝ) (n : ℂ)
    (lambDa scale : ℝ) (dimention : ℕ) : Except String FieldArr := do
  let l := get_order a lambDa
  let k := 2 * Real.pi / lambDa
  let B := coeff_b S l k n a
  let scatter ← scatter_matrix S res fov z a lambDa dimention ("far") (0, 0, 0)
  let s ← scaleOrders scatter B
  let E_far_shifted := scaleField scale (sumLast s)
  match dimention, E_far_shifted with
  | 2, .two M => pure (.two (ifftshiftL M))
  | 1, .one v => pure (.one v)
  | _, _ => Except.error ("far_field: unreachable dimension/shape combination")

/-- `bandpass_filter`, 2-D mask (lines 442-481): annulus
`NA_in <= sqrt(kx^2+ky^2) <= NA_out` in the Fourier grid, entries 1/0. -/
def bandpass_filter2 (res : ℕ) (fov NA_in NA_out : ℝ) : List (List ℝ) :=
  (List.range res).map fun i =>
    (List.range res).map fun j =>
      let kxky := Real.sqrt ((fftfreqAt res (fov / res) j) ^ 2
        + (fftfreqAt res (fov / res) i) ^ 2)
      if NA_in ≤ kxky ∧ kxky ≤ NA_out then 1 else 0

/-- `bandpass_filter` (lines 442-491): the 2-D mask is always built; the 1-D
return is its row 0 sliced to `[:int(res/2)+1]`. -/
def bandpass_filter (res : ℕ) (fov NA_in NA_out : ℝ) (dimention : ℕ) :
    Except String Canvas :=
  let bpf := bandpass_filter2 res fov NA_in NA_out
  if dimention = 2 then Except.ok (.two bpf)
  else if dimention = 1 then Except.ok (.one ((bpf.headD []).take (res / 2 + 1)))
  else Except.error ("The dimention of the simulation is invalid!")

/-- `idhf` (lines 493-538), the inverse discrete Hankel transform:
`X = int(fov/2)`, `n_s = int(res/2)`, `jv_root = jn_zeros(0, n_s)`,
`jv_M = jv_root[-1]` (an empty root list raises `IndexError`, line 516,
before the weights are formed), then `prefix = 2/(X**2)` — a scalar integer
division that raises `ZeroDivisionError` when `X = 0`, i.e. `fov < 2`
(line 526) — `jv_m = jv_root[:-1]`, `F_term = y[1:]`, and
`F = 2/X^2 * sum_m J0(jv_m*jv_k/jv_M)/J1(jv_m)^2 * F_term[:-1]`,
`F_x = jv_root*X/jv_M`. -/
def idhf (S : SpecialFns) (res fov : ℕ) (y : List ℂ) :
    Except String (List ℂ × List ℝ) :=
  let X : ℕ := fov / 2
  let n_s : ℕ := res / 2
  let jv_root := S.j0Zeros n_s
  match jv_root.getLast? with
  | none => Except.error ("IndexError: index -1 is out of bounds for axis 0 with size 0")
  | some jv_M =>
    if X = 0 then Except.error ("ZeroDivisionError: division by zero")
    else
      let jv_m := jv_root.dropLast
      let F_term := y.drop 1
      let pref : ℝ := 2 / (X : ℝ) ^ 2
      let F := jv_root.map fun jk =>
        (pref : ℂ) * ((jv_m.zip F_term.dropLast).map fun p =>
          ((S.besselJ 0 (p.1 * jk / jv_M) / (S.besselJ 1 p.1) ^ 2 : ℝ) : ℂ) * p.2).sum
      let F_x := jv_root.map fun jr => jr * (X : ℝ) / jv_M
      Except.ok (F, F_x)

/-- The 1-D branch of `apply_filter` (lines 570-577): multiply the
already-transformed field by the filter, then inverse discrete Hankel
transform. -/
def apply_filter1 (S : SpecialFns) (res fov : ℕ) (E filt : List ℂ) :
    Except String (List ℂ × List ℝ) :=
  idhf S res fov (List.zipWith (fun x y => x * y) E filt)

/-- `get_phase_shift` (lines 606-636) at frequency sample `(i, j)` of the
`res x res` grid: `kz = sqrt(k^2 - (kx^2+ky^2))` where defined.  The code
masks `kxky` and then `kz` in place, which collapses to: `kz = 0` whenever
`kx^2+ky^2 > k^2`, else `kz = sqrt(k^2-(kx^2+ky^2))`; the result is
`exp(1j*kz*d)`. -/
def get_phase_shift (res : ℕ) (fov k d : ℝ) (i j : Fin res) : ℂ :=
  let kx := fftfreqAt res (fov / res) (j : ℕ)
  let ky := fftfreqAt res (fov / res) (i : ℕ)
  let kxky := kx ^ 2 + ky ^ 2
  let kz : ℝ := if k ^ 2 < kxky then 0 else Real.sqrt (k ^ 2 - kxky)
  Complex.exp (Complex.I * (kz : ℂ) * (d : ℂ))

/-! ### Discrete Fourier transform layer for `far2near` (claim C6)

Square `res x res` complex arrays are modelled as functions
`ZMod n → ZMod n → ℂ`; `np.roll` becomes index translation. -/

/-- numpy `fft` along one axis: `X[k] = sum_j x[j] * exp(-2*pi*1j*j*k/n)`. -/
def fft1 {n : ℕ} [NeZero n] (x : ZMod n → ℂ) (k : ZMod n) : ℂ :=
  ∑ j : ZMod n,
    Complex.exp (-(2 * (Real.pi : ℂ) * Complex.I * ((j.val : ℂ) * (k.val : ℂ))) / n) * x j

/-- numpy `ifft` along one axis, with the `1/n` normalization. -/
def ifft1 {n : ℕ} [NeZero n] (x : ZMod n → ℂ) (k : ZMod n) : ℂ :=
  (n : ℂ)⁻¹ * ∑ j : ZMod n,
    Complex.exp ((2 * (Real.pi : ℂ) * Complex.I * ((j.val : ℂ) * (k.val : ℂ))) / n) * x j

/-- `np.fft.fft2`: 1-D transform along each axis. -/
def fft2 {n : ℕ} [NeZero n] (F : ZMod n → ZMod n → ℂ) (u v : ZMod n) : ℂ :=
  fft1 (fun a => fft1 (F a) v) u

/-- `np.fft.ifft2`. -/
def ifft2 {n : ℕ} [NeZero n] (F : ZMod n → ZMod n → ℂ) (u v : ZMod n) : ℂ :=
  ifft1 (fun a => ifft1 (F a) v) u

/-- `np.fft.fftshift` on a square array: roll both axes by `n // 2`,
so entry `i` reads from `i - n//2`. -/
def fftshift2 {n : ℕ} (F : ZMod n → ZMod n → ℂ) : ZMod n → ZMod n → ℂ :=
  fun i j => F (i - ((n / 2 : ℕ) : ZMod n)) (j - ((n / 2 : ℕ) : ZMod n))

/-- `np.fft.ifftshift`: roll both axes by `-(n // 2)`. -/
def ifftshift2 {n : ℕ} (F : ZMod n → ZMod n → ℂ) : ZMod n → ZMod n → ℂ :=
  fun i j => F (i + ((n / 2 : ℕ) : ZMod n)) (j + ((n / 2 : ℕ) : ZMod n))

/-- `far2near` (lines 425-440): `ifftshift(ifft2(fftshift(far_field)))`. -/
def far2near {n : ℕ} [NeZero n] (F : ZMod n → ZMod n → ℂ) : ZMod n → ZMod n → ℂ :=
  ifftshift2 (ifft2 (fftshift2 F))

/-- The claim's "matching forward transform":
`fftshift(fft2(ifftshift(.)))`. -/
def forward_transform {n : ℕ} [NeZero n] (G : ZMod n → ZMod n → ℂ) :
    ZMod n → ZMod n → ℂ :=
  fftshift2 (fft2 (ifftshift2 G))

/-! ### Concrete fixtures used by witnesses and counterexamples -/

/-- A trivial realization of the special-function record whose `j0Zeros n`
returns `[1, 2, ..., n]` (so that the primitive contract
`(j0Zeros n).length = n` holds). -/
def trivialFns : SpecialFns where
  sphJn := fun _ _ => 0
  sphJnDeriv := fun _ _ => 0
  sphYn := fun _ _ => 0
  sphYnDeriv := fun _ _ => 0
  evalLegendre := fun _ _ => 0
  besselJ := fun _ _ => 0
  j0Zeros := fun m => (List.range m).map fun (i : ℕ) => ((i : ℝ) + 1)

/-- A concrete 6x6 natural-number array, the `pad 2 fov 1` size for the C8
witness. -/
def wit36 : List (List ℕ) :=
  (List.range 6).map fun i => (List.range 6).map fun j => 10 * i + j

/-! ## Theorems -/

theorem l_max_nonneg (a lambDa : ℝ) (ha : 0 < a) (hl : 0 < lambDa) :
    0 ≤ l_max a lambDa := by
  have hx : (0:ℝ) < 2 * Real.pi * a / lambDa := by positivity
  have harg : (0:ℝ) ≤ 2 * Real.pi * a / lambDa
      + 4 * (2 * Real.pi * a / lambDa) ^ ((1:ℝ)/3) + 2 := by
    have h1 : (0:ℝ) ≤ (2 * Real.pi * a / lambDa) ^ ((1:ℝ)/3) :=
      Real.rpow_nonneg hx.le _
    nlinarith
  exact Int.ceil_nonneg harg

/-- Claim C3: for positive radius and wavelength, `get_order` returns the
contiguous strictly increasing sequence `0, 1, ..., l_max` with
`l_max = ceil(2*pi*a/lambDa + 4*(2*pi*a/lambDa)^(1/3) + 2)`, hence of length
`l_max + 1`; and for fixed wavelength, `l_max` is non-decreasing in the
radius. -/
theorem get_order_contiguous_mono (a a2 lambDa : ℝ)
    (ha : 0 < a) (haa : a ≤ a2) (hl : 0 < lambDa) :
    ((get_order a lambDa).length : ℤ) = l_max a lambDa + 1 ∧
    (∀ i (h : i < (get_order a lambDa).length),
      (get_order a lambDa).get ⟨i, h⟩ = (i : ℤ)) ∧
    l_max a lambDa ≤ l_max a2 lambDa := by
  refine ⟨?_, ?_, ?_⟩
  · have h0 : 0 ≤ l_max a lambDa := l_max_nonneg a lambDa ha hl
    simp only [get_order, List.length_map, List.length_range]
    omega
  · intro i h
    simp only [get_order, List.get_eq_getElem, List.getElem_map, List.getElem_range]
  · have hx : (0:ℝ) < 2 * Real.pi * a / lambDa := by positivity
    have hxy : 2 * Real.pi * a / lambDa ≤ 2 * Real.pi * a2 / lambDa := by
      gcongr
    have hr : (2 * Real.pi * a / lambDa) ^ ((1:ℝ)/3)
        ≤ (2 * Real.pi * a2 / lambDa) ^ ((1:ℝ)/3) :=
      Real.rpow_le_rpow hx.le hxy (by norm_num)
    have : 2 * Real.pi * a / lambDa
        + 4 * (2 * Real.pi * a / lambDa) ^ ((1:ℝ)/3) + 2
        ≤ 2 * Real.pi * a2 / lambDa
        + 4 * (2 * Real.pi * a2 / lambDa) ^ ((1:ℝ)/3) + 2 := by
      nlinarith
    exact Int.ceil_le_ceil this

/-- Witness for C3 at `a = 1, a2 = 2, lambDa = 1`. -/
theorem get_order_contiguous_mono_witness :
    ((0:ℝ) < 1 ∧ (1:ℝ) ≤ 2 ∧ (0:ℝ) < 1) ∧
    (((get_order 1 1).length : ℤ) = l_max 1 1 + 1 ∧
     (∀ i (h : i < (get_order 1 1).length),
       (get_order 1 1).get ⟨i, h⟩ = (i : ℤ)) ∧
     l_max 1 1 ≤ l_max 2 1) :=
  ⟨⟨one_pos, one_le_two, one_pos⟩,
    get_order_contiguous_mono 1 2 1 one_pos one_le_two one_pos⟩

/-- Claim C4: for every order vector `l`, wavenumber `k`, complex refractive
index `n` and radius `a` (and any realization of the special-function
primitives), `coeff_b` returns a vector of the same length as `l` whose entry
at each order is the spec's ratio of spherical Bessel/Hankel combinations at
the sphere-surface arguments `ka` and `kna`. -/
theorem coeff_b_matches_spec_formula (S : SpecialFns) (l : List ℤ) (k : ℝ) (n : ℂ) (a : ℝ) :
    (coeff_b S l k n a).length = l.length ∧
    coeff_b S l k n a = l.map (coeff_b_spec_formula S k n a) := by
  constructor
  · simp [coeff_b]
  · unfold coeff_b coeff_b_spec_formula
    refine List.map_congr_left fun li _ => ?_
    ring_nf

/-- Claim C5: with matched refractive index `n = 1` the numerator
`j(ka)*j'(ka) - j(ka)*j'(ka)` vanishes identically, so every entry of
`coeff_b(l, k, 1, a)` is zero. -/
theorem coeff_b_matched_index_zero (S : SpecialFns) (l : List ℤ) (k a : ℝ)
    (hk : 0 < k) (ha : 0 < a) :
    coeff_b S l k 1 a = List.replicate l.length 0 := by
  unfold coeff_b
  rw [List.eq_replicate_iff]
  refine ⟨by simp, fun b hb => ?_⟩
  simp only [List.mem_map] at hb
  obtain ⟨li, -, hli⟩ := hb
  have harg : (k : ℂ) * 1 * a = (k : ℂ) * a := by ring
  rw [harg] at hli
  simp only [mul_one] at hli
  rw [← hli]
  rw [mul_comm (S.sphJn li ((k : ℂ) * a)) (S.sphJnDeriv li ((k : ℂ) * a))]
  rw [sub_self, zero_div]

/-- Witness for C5 at a concrete primitive record, `l = [0, 1]`, `k = a = 1`. -/
theorem coeff_b_matched_index_zero_witness :
    ((0:ℝ) < 1 ∧ (0:ℝ) < 1) ∧
    coeff_b trivialFns [0, 1] 1 1 1 = List.replicate ([0, 1] : List ℤ).length 0 :=
  ⟨⟨one_pos, one_pos⟩,
    coeff_b_matched_index_zero trivialFns [0, 1] 1 1 one_pos one_pos⟩

/-- Claim C2, counterexample: at the odd resolution `res = 3` (with
`fov = 4, z = 0`) the 1-D canvas has `ceil(3/2)+1 = 3` samples, not
`floor(3/2)+1 = 2` as the claim states. -/
theorem horizontal_canvas1_length_claim_false :
    (horizontal_canvas1 3 4 0).length = 3 ∧ (3 : ℕ) ≠ 3 / 2 + 1 := by
  constructor
  · simp [horizontal_canvas1]
  · decide

/-- Claim C2 (amended: the length is `ceil(res/2)+1`, which equals
`floor(res/2)+1` exactly when `res` is even): for every `res >= 2`, `fov` and
`z`, the 1-D canvas has `ceil(res/2)+1 = (res+1)/2 + 1` radial samples, and
sample `i` equals `sqrt(x_i^2 + y^2 + z^2)` where `x_i` is the `i`-th
coordinate of `linspace(-ceil(fov/2), ceil(fov/2), res)` and `y` is fixed to
the first grid coordinate `x_0` (not `y = 0`). -/
theorem horizontal_canvas1_length_and_values (res : ℕ) (fov z : ℝ)
    (hres : 2 ≤ res) :
    (horizontal_canvas1 res fov z).length = (res + 1) / 2 + 1 ∧
    (∀ i (h : i < (horizontal_canvas1 res fov z).length),
      (horizontal_canvas1 res fov z).get ⟨i, h⟩ =
        Real.sqrt ((linspaceAt ((⌈fov / 2⌉ : ℤ) : ℝ) res i) ^ 2
          + (linspaceAt ((⌈fov / 2⌉ : ℤ) : ℝ) res 0) ^ 2 + z ^ 2)) := by
  have hlen : (horizontal_canvas1 res fov z).length = (res + 1) / 2 + 1 := by
    simp only [horizontal_canvas1, List.length_map, List.length_take,
      List.length_range]
    omega
  refine ⟨hlen, fun i h => ?_⟩
  have hi : i < (res + 1) / 2 + 1 := hlen ▸ h
  have hi2 : i < res := by omega
  simp only [horizontal_canvas1, List.get_eq_getElem, List.getElem_map,
    List.getElem_take, List.getElem_range]

/-- Witness for C2's amended theorem at `res = 5, fov = 4, z = 0`. -/
theorem horizontal_canvas1_length_and_values_witness :
    (2 ≤ 5) ∧
    ((horizontal_canvas1 5 4 0).length = (5 + 1) / 2 + 1 ∧
     (∀ i (h : i < (horizontal_canvas1 5 4 0).length),
       (horizontal_canvas1 5 4 0).get ⟨i, h⟩ =
         Real.sqrt ((linspaceAt ((⌈(4:ℝ) / 2⌉ : ℤ) : ℝ) 5 i) ^ 2
           + (linspaceAt ((⌈(4:ℝ) / 2⌉ : ℤ) : ℝ) 5 0) ^ 2 + 0 ^ 2))) :=
  ⟨by decide, horizontal_canvas1_length_and_values 5 4 0 (by decide)⟩

/-- Slicing helper: element `i` of `xs[s : s+r]` is element `s+i` of `xs`. -/
theorem getD_drop_take {α : Type} (xs : List α) (s r i : ℕ) (d : α) (hi : i < r) :
    ((xs.drop s).take r).getD i d = xs.getD (s + i) d := by
  simp only [List.getD_eq_getElem?_getD, List.getElem?_take_of_lt hi,
    List.getElem?_drop]

/-- Claim C8: for padding `p <= 2` and a square field of the padded size
`pad(res, fov, p).1 = res*(2p+1)`, `crop_field res E` is exactly `res x res`
and is the centered block: entry `(i, j)` of the crop is entry
`(res*p + i, res*p + j)` of `E`, so cropping exactly inverts the padding's
centering with no one-pixel offset. -/
theorem crop_field_inverts_pad_centering {α : Type} (res fov p : ℕ)
    (hp : p ≤ 2) (hres : 0 < res) (E : List (List α))
    (hE : E.length = (pad res fov p).1)
    (hrow : ∀ row ∈ E, row.length = (pad res fov p).1) :
    (crop_field res E).length = res ∧
    (∀ row ∈ crop_field res E, row.length = res) ∧
    (∀ (d : α) (i j : ℕ), i < res → j < res →
      ((crop_field res E).getD i []).getD j d
        = (E.getD (res * p + i) []).getD (res * p + j) d) := by
  have hmul : res * (p * 2 + 1) = 2 * (res * p) + res := by ring
  have hlen : E.length = 2 * (res * p) + res := by
    rw [hE]; exact hmul
  have hstart : (((E.length / 2 : ℕ) - (res / 2 : ℕ) : ℤ)).toNat = res * p := by
    rw [hlen]; omega
  have hcrop : crop_field res E
      = ((E.drop (res * p)).take res).map
          fun row => (row.drop (res * p)).take res := by
    simp only [crop_field]
    rw [hstart]
  refine ⟨?_, ?_, ?_⟩
  · rw [hcrop]
    simp only [List.length_map, List.length_take, List.length_drop, hlen]
    omega
  · intro row hrowmem
    rw [hcrop] at hrowmem
    simp only [List.mem_map] at hrowmem
    obtain ⟨orig, horig, hfeq⟩ := hrowmem
    have horigE : orig ∈ E := List.mem_of_mem_drop (List.mem_of_mem_take horig)
    have horiglen : orig.length = 2 * (res * p) + res := by
      rw [hrow orig horigE]; exact hmul
    rw [← hfeq]
    simp only [List.length_take, List.length_drop, horiglen]
    omega
  · intro d i j hi hj
    have hlt : res * p + i < E.length := by omega
    have h1 : (crop_field res E).getD i []
        = ((E.getD (res * p + i) []).drop (res * p)).take res := by
      rw [hcrop]
      simp only [List.getD_eq_getElem?_getD, List.getElem?_map,
        List.getElem?_take_of_lt hi, List.getElem?_drop,
        List.getElem?_eq_getElem hlt]
      simp [List.getD_eq_getElem?_getD, List.getElem?_eq_getElem hlt]
    rw [h1, getD_drop_take _ _ _ _ _ hj]

/-- Witness for C8 at `res = 2, fov = 4, p = 1` on a concrete 6x6 array. -/
theorem crop_field_inverts_pad_centering_witness :
    (1 ≤ 2 ∧ 0 < 2 ∧
      wit36.length = (pad 2 4 1).1 ∧ (∀ row ∈ wit36, row.length = (pad 2 4 1).1)) ∧
    ((crop_field 2 wit36).length = 2 ∧
     (∀ row ∈ crop_field 2 wit36, row.length = 2) ∧
     (∀ (d : ℕ) (i j : ℕ), i < 2 → j < 2 →
       ((crop_field 2 wit36).getD i []).getD j d
         = (wit36.getD (2 * 1 + i) []).getD (2 * 1 + j) d)) :=
  ⟨⟨by decide, by decide, by decide, by decide⟩,
    crop_field_inverts_pad_centering 2 4 1 (by decide) (by decide) wit36
      (by decide) (by decide)⟩

/-- Claim C1, counterexample: at `res = 2, fov = 1, k = 1, d = 1`, the
sample `(1,1)` has `kx^2 + ky^2 = 2 > k^2 = 1` (evanescent), yet
`get_phase_shift` returns `exp(1j*0*d) = 1` there, not `0`: masking sets
`kz` (not the output) to zero. -/
theorem get_phase_shift_evanescent_not_zero :
    get_phase_shift 2 1 1 1 ⟨1, one_lt_two⟩ ⟨1, one_lt_two⟩ = 1 ∧ (1 : ℂ) ≠ 0 := by
  constructor
  · norm_num [get_phase_shift, fftfreqAt]
  · exact one_ne_zero

/-- Claim C1 (amended: on the evanescent region the returned value is
`exp(1j*0*d) = 1`, not `0`): for every `res >= 1`, `fov > 0`, `k > 0` and
`d`, `get_phase_shift(res, fov, k, d)` is a `res x res` complex array whose
sample `(i, j)` equals `exp(1j*kz*d)` with `kz = sqrt(k^2 - (kx^2+ky^2))`
wherever `kx^2+ky^2 <= k^2`, and equals `1` wherever `kx^2+ky^2 > k^2`. -/
theorem get_phase_shift_values (res : ℕ) (fov k d : ℝ)
    (hres : 1 ≤ res) (hfov : 0 < fov) (hk : 0 < k) (i j : Fin res) :
    ((fftfreqAt res (fov / res) (j : ℕ)) ^ 2 + (fftfreqAt res (fov / res) (i : ℕ)) ^ 2
        ≤ k ^ 2 →
      get_phase_shift res fov k d i j
        = Complex.exp (Complex.I
            * ((Real.sqrt (k ^ 2 - ((fftfreqAt res (fov / res) (j : ℕ)) ^ 2
                + (fftfreqAt res (fov / res) (i : ℕ)) ^ 2))) : ℂ) * (d : ℂ))) ∧
    (k ^ 2 < (fftfreqAt res (fov / res) (j : ℕ)) ^ 2
        + (fftfreqAt res (fov / res) (i : ℕ)) ^ 2 →
      get_phase_shift res fov k d i j = 1) := by
  constructor
  · intro h
    simp only [get_phase_shift, not_lt.mpr h, if_false, if_neg]
  · intro h
    simp only [get_phase_shift, if_pos h]
    norm_num

/-- Witness for C1's amended theorem at `res = 2, fov = 1, k = 1, d = 1`,
sample `(0, 0)`. -/
theorem get_phase_shift_values_witness :
    (1 ≤ 2 ∧ (0:ℝ) < 1 ∧ (0:ℝ) < 1) ∧
    (((fftfreqAt 2 ((1:ℝ) / 2) ((⟨0, two_pos⟩ : Fin 2) : ℕ)) ^ 2
        + (fftfreqAt 2 ((1:ℝ) / 2) ((⟨0, two_pos⟩ : Fin 2) : ℕ)) ^ 2 ≤ (1:ℝ) ^ 2 →
      get_phase_shift 2 1 1 1 ⟨0, two_pos⟩ ⟨0, two_pos⟩
        = Complex.exp (Complex.I
            * ((Real.sqrt ((1:ℝ) ^ 2 - ((fftfreqAt 2 ((1:ℝ) / 2) ((⟨0, two_pos⟩ : Fin 2) : ℕ)) ^ 2
                + (fftfreqAt 2 ((1:ℝ) / 2) ((⟨0, two_pos⟩ : Fin 2) : ℕ)) ^ 2))) : ℂ) * ((1:ℝ) : ℂ))) ∧
     ((1:ℝ) ^ 2 < (fftfreqAt 2 ((1:ℝ) / 2) ((⟨0, two_pos⟩ : Fin 2) : ℕ)) ^ 2
        + (fftfreqAt 2 ((1:ℝ) / 2) ((⟨0, two_pos⟩ : Fin 2) : ℕ)) ^ 2 →
      get_phase_shift 2 1 1 1 ⟨0, two_pos⟩ ⟨0, two_pos⟩ = 1)) :=
  ⟨⟨one_le_two, one_pos, one_pos⟩,
    get_phase_shift_values 2 1 1 1 one_le_two one_pos one_pos ⟨0, two_pos⟩ ⟨0, two_pos⟩⟩

/-- Summation helper: a zipped elementwise sum as an indexed `Finset` sum. -/
theorem zip_map_sum (as : List ℝ) (bs : List ℂ) (f : ℝ → ℂ → ℂ) :
    ((as.zip bs).map fun p => f p.1 p.2).sum
      = ∑ m ∈ Finset.range (min as.length bs.length), f (as.getD m 0) (bs.getD m 0) := by
  induction as generalizing bs with
  | nil => simp
  | cons a as ih =>
    cases bs with
    | nil => simp
    | cons b bs =>
      simp only [List.zip_cons_cons, List.map_cons, List.sum_cons, List.length_cons]
      rw [ih bs, Nat.succ_min_succ, Finset.sum_range_succ']
      simp only [List.getD_cons_succ, List.getD_cons_zero]
      exact (add_comm _ _)

/-- `dropLast` keeps in-range entries. -/
theorem getD_dropLast {α : Type} (xs : List α) (m : ℕ) (d : α)
    (h : m < xs.length - 1) :
    xs.dropLast.getD m d = xs.getD m d := by
  have hm : m < xs.length := by omega
  simp [List.getD_eq_getElem?_getD, List.getElem?_dropLast, h,
    List.getElem?_eq_getElem hm]

/-- Claim C9, counterexample: at `res = 2, fov = 3` (with zeros primitive
returning `[1]`, matching the `jn_zeros` contract) the code computes
`X = int(fov/2) = 1`, so `F_x = [1*1/1] = [1]`; the claim's `X = fov/2 = 3/2`
would give `F_x = [1*(3/2)/1] = [3/2]`. -/
theorem idhf_claimed_X_false :
    idhf trivialFns 2 3 [0, 0] = Except.ok ([0], [(1:ℝ)]) ∧
    [(1:ℝ)] ≠ [1 * ((3:ℝ) / 2) / 1] := by
  constructor
  · norm_num [idhf, trivialFns, List.range_succ]
  · norm_num

/-- Claim C9 (amended: the aperture is `X = int(fov/2)`, the truncated half
field of view, which equals `fov/2` exactly when `fov` is even; `fov >= 2`
is required, since `fov` in `{0,1}` makes `X = 0` and the source raises
`ZeroDivisionError` at `prefix = 2/(X**2)`): for every realization of the
Bessel primitives, even `res >= 2`, integer `fov >= 2`, and
input `y` of length `res/2+1`, `idhf(res, fov, y)` returns `(F, F_x)` with
`F[k] = (2/X^2) * sum_m J0(j_m*j_k/j_M)/J1(j_m)^2 * y[m]` summed over
`m = 1 .. res/2-1` (the first and last entries of `y` are dropped), and
`F_x = jv_root*X/j_M`, where `j_1..j_M` are the first `res/2` zeros of `J0`
and `j_M` is the last of them. -/
theorem idhf_quadrature (S : SpecialFns) (res fov : ℕ) (y : List ℂ)
    (heven : res % 2 = 0) (hres : 2 ≤ res) (hfov : 2 ≤ fov)
    (hy : y.length = res / 2 + 1)
    (hz : (S.j0Zeros (res / 2)).length = res / 2) :
    idhf S res fov y = Except.ok (
      (S.j0Zeros (res / 2)).map fun jk =>
        (((2 : ℝ) / ((fov / 2 : ℕ) : ℝ) ^ 2 : ℝ) : ℂ)
          * ∑ m ∈ Finset.range (res / 2 - 1),
              (((S.besselJ 0 ((S.j0Zeros (res / 2)).getD m 0 * jk
                    / (S.j0Zeros (res / 2)).getD (res / 2 - 1) 0)
                  / (S.besselJ 1 ((S.j0Zeros (res / 2)).getD m 0)) ^ 2 : ℝ)) : ℂ)
                * y.getD (m + 1) 0,
      (S.j0Zeros (res / 2)).map fun jr =>
        jr * ((fov / 2 : ℕ) : ℝ) / (S.j0Zeros (res / 2)).getD (res / 2 - 1) 0) := by
  have hpos : 1 ≤ res / 2 := by omega
  have hlt : res / 2 - 1 < (S.j0Zeros (res / 2)).length := by omega
  have hlast : (S.j0Zeros (res / 2)).getLast?
      = some ((S.j0Zeros (res / 2)).getD (res / 2 - 1) 0) := by
    rw [List.getLast?_eq_getElem?, hz, List.getElem?_eq_getElem hlt]
    simp [List.getD_eq_getElem?_getD, List.getElem?_eq_getElem hlt]
  have hX : ¬(fov / 2 = 0) := by omega
  simp only [idhf, hlast, if_neg hX]
  refine congrArg Except.ok (Prod.ext ?_ rfl)
  refine List.map_congr_left fun jk _ => ?_
  refine congrArg (fun s => (((2 : ℝ) / ((fov / 2 : ℕ) : ℝ) ^ 2 : ℝ) : ℂ) * s) ?_
  rw [zip_map_sum (S.j0Zeros (res / 2)).dropLast (y.drop 1).dropLast
    (fun x c => ((S.besselJ 0 (x * jk / (S.j0Zeros (res / 2)).getD (res / 2 - 1) 0)
        / (S.besselJ 1 x) ^ 2 : ℝ) : ℂ) * c)]
  have hl1 : (S.j0Zeros (res / 2)).dropLast.length = res / 2 - 1 := by
    simp [hz]
  have hl2 : (y.drop 1).dropLast.length = res / 2 - 1 := by
    simp [hy]
  rw [hl1, hl2, min_self]
  refine Finset.sum_congr rfl fun m hm => ?_
  have hm1 : m < res / 2 - 1 := Finset.mem_range.mp hm
  have hdl1 : (S.j0Zeros (res / 2)).dropLast.getD m 0
      = (S.j0Zeros (res / 2)).getD m 0 :=
    getD_dropLast _ _ _ (by omega)
  have hdl2 : (y.drop 1).dropLast.getD m 0 = y.getD (m + 1) 0 := by
    rw [getD_dropLast _ _ _ (by simp [hy]; omega)]
    simp [List.getD_eq_getElem?_getD, List.getElem?_drop, Nat.add_comm 1 m]
  rw [hdl1, hdl2]

/-- Witness for C9's amended theorem at `res = 4, fov = 4, y = [0,0,0]`. -/
theorem idhf_quadrature_witness :
    (4 % 2 = 0 ∧ 2 ≤ 4 ∧ 2 ≤ 4 ∧ ([0, 0, 0] : List ℂ).length = 4 / 2 + 1 ∧
      (trivialFns.j0Zeros (4 / 2)).length = 4 / 2) ∧
    idhf trivialFns 4 4 [0, 0, 0] = Except.ok (
      (trivialFns.j0Zeros (4 / 2)).map fun jk =>
        (((2 : ℝ) / ((4 / 2 : ℕ) : ℝ) ^ 2 : ℝ) : ℂ)
          * ∑ m ∈ Finset.range (4 / 2 - 1),
              (((trivialFns.besselJ 0 ((trivialFns.j0Zeros (4 / 2)).getD m 0 * jk
                    / (trivialFns.j0Zeros (4 / 2)).getD (4 / 2 - 1) 0)
                  / (trivialFns.besselJ 1 ((trivialFns.j0Zeros (4 / 2)).getD m 0)) ^ 2 : ℝ)) : ℂ)
                * ([0, 0, 0] : List ℂ).getD (m + 1) 0,
      (trivialFns.j0Zeros (4 / 2)).map fun jr =>
        jr * ((4 / 2 : ℕ) : ℝ) / (trivialFns.j0Zeros (4 / 2)).getD (4 / 2 - 1) 0) :=
  ⟨⟨by decide, by decide, by decide, by decide, by simp [trivialFns]⟩,
    idhf_quadrature trivialFns 4 4 [0, 0, 0] (by decide) (by decide) (by decide)
      (by decide) (by simp [trivialFns])⟩

theorem except_bind_error {ε α β : Type} (e : ε) (k : α → Except ε β) :
    ((Except.error e : Except ε α) >>= k) = (Except.error e : Except ε β) := rfl

theorem except_bind_ok {ε α β : Type} (v : α) (k : α → Except ε β) :
    ((Except.ok v : Except ε α) >>= k) = k v := rfl

theorem except_pure_bind {ε α β : Type} (v : α) (k : α → Except ε β) :
    ((pure v : Except ε α) >>= k) = k v := rfl

/-- Claim C7: invalid arguments fail immediately and synchronously.  A
`dimention` outside `{1,2}` makes `horizontal_canvas` raise `ValueError`, and
the error propagates through `scatter_matrix` and `far_field` before any
output is produced; with a valid `dimention`, an `option` outside
`{"far","near"}` makes `scatter_matrix` raise `ValueError`; and a scalar
order argument makes `asymptotic_hankel` raise `ValueError`. -/
theorem invalid_arguments_fail (S : SpecialFns) (res : ℕ)
    (fov z a lambDa scale : ℝ) (n : ℂ) (d : ℕ) (opt : String)
    (k_dir : ℝ × ℝ × ℝ) (x : Canvas) (c : ℤ) :
    (d ≠ 1 → d ≠ 2 →
      horizontal_canvas res fov z d
          = Except.error ("The dimention of the canvas is invalid!") ∧
      scatter_matrix S res fov z a lambDa d opt k_dir
          = Except.error ("The dimention of the canvas is invalid!") ∧
      far_field S res fov z a n lambDa scale d
          = Except.error ("The dimention of the canvas is invalid!")) ∧
    ((d = 1 ∨ d = 2) → opt ≠ ("far") → opt ≠ ("near") →
      scatter_matrix S res fov z a lambDa d opt k_dir
          = Except.error ("Please specify far field or near field!")) ∧
    asymptotic_hankel x (.scalar c)
        = Except.error ("Please set l as an order vector, not scalar!") := by
  refine ⟨?_, ?_, ?_⟩
  · intro hd1 hd2
    have hc : horizontal_canvas res fov z d
        = Except.error ("The dimention of the canvas is invalid!") := by
      simp [horizontal_canvas, hd1, hd2]
    have hs : scatter_matrix S res fov z a lambDa d opt k_dir
        = Except.error ("The dimention of the canvas is invalid!") := by
      unfold scatter_matrix
      rw [hc]
      rfl
    have hs2 : scatter_matrix S res fov z a lambDa d ("far") (0, 0, 0)
        = Except.error ("The dimention of the canvas is invalid!") := by
      unfold scatter_matrix
      rw [hc]
      rfl
    have hf : far_field S res fov z a n lambDa scale d
        = Except.error ("The dimention of the canvas is invalid!") := by
      unfold far_field
      rw [hs2]
      rfl
    exact ⟨hc, hs, hf⟩
  · intro hd ho1 ho2
    have hc : ∃ v, horizontal_canvas res fov z d = Except.ok v := by
      rcases hd with rfl | rfl
      · exact ⟨Canvas.one (horizontal_canvas1 res fov z), by simp [horizontal_canvas]⟩
      · exact ⟨Canvas.two (horizontal_canvas2 res fov z), by simp [horizontal_canvas]⟩
    obtain ⟨v, hv⟩ := hc
    unfold scatter_matrix
    rw [hv, except_bind_ok, if_neg ho1, if_neg ho2]
    rfl
  · rfl

/-- Witness for C7 at `d = 3` and `opt = "mid"` (with `d = 1` for the
option check), on concrete arguments. -/
theorem invalid_arguments_fail_witness :
    horizontal_canvas 2 1 0 3
        = Except.error ("The dimention of the canvas is invalid!") ∧
    scatter_matrix trivialFns 2 1 0 1 1 3 ("mid") (0, 0, 0)
        = Except.error ("The dimention of the canvas is invalid!") ∧
    far_field trivialFns 2 1 0 1 1 1 1 3
        = Except.error ("The dimention of the canvas is invalid!") ∧
    scatter_matrix trivialFns 2 1 0 1 1 1 ("mid") (0, 0, 0)
        = Except.error ("Please specify far field or near field!") ∧
    asymptotic_hankel (Canvas.one []) (.scalar 0)
        = Except.error ("Please set l as an order vector, not scalar!") := by
  have H3 := invalid_arguments_fail trivialFns 2 1 0 1 1 1 1 3 ("mid")
    (0, 0, 0) (Canvas.one []) 0
  have H1 := invalid_arguments_fail trivialFns 2 1 0 1 1 1 1 1 ("mid")
    (0, 0, 0) (Canvas.one []) 0
  obtain ⟨hc, hs, hf⟩ := H3.1 (by decide) (by decide)
  exact ⟨hc, hs, hf, H1.2.1 (Or.inl rfl) (by decide) (by decide), H3.2.2⟩

theorem except_map_error {ε α β : Type} (e : ε) (f : α → β) :
    Except.map f (Except.error e : Except ε α) = (Except.error e : Except ε β) := rfl

theorem except_map_ok {ε α β : Type} (v : α) (f : α → β) :
    Except.map f (Except.ok v : Except ε α) = (Except.ok (f v) : Except ε β) := rfl

theorem horizontal_canvas1_len (res : ℕ) (fov z : ℝ) :
    (horizontal_canvas1 res fov z).length = min ((res + 1) / 2 + 1) res := by
  simp [horizontal_canvas1]

theorem asymptotic_legendre1_len (S : SpecialFns) (res : ℕ) (fov : ℝ) (l : List ℤ) :
    (asymptotic_legendre1 S res fov l).length = min (res / 2 + 1) res := by
  simp [asymptotic_legendre1]

theorem asymptotic_legendre1_rows (S : SpecialFns) (res : ℕ) (fov : ℝ) (l : List ℤ) :
    ∀ row ∈ asymptotic_legendre1 S res fov l, row.length = l.length := by
  intro row hrow
  simp only [asymptotic_legendre1, List.mem_map] at hrow
  obtain ⟨f, -, hrow⟩ := hrow
  rw [← hrow]
  split <;> simp

theorem rowsMatch_of (A B : List (List ℂ)) (L : ℕ)
    (hA : ∀ r ∈ A, r.length = L) (hB : ∀ r ∈ B, r.length = L) :
    rowsMatch A B = true := by
  rw [rowsMatch, List.all_eq_true]
  intro p hp
  obtain ⟨h1, h2⟩ := List.of_mem_zip hp
  simp [hA p.1 h1, hB p.2 h2]

theorem rows_len_zipWith_mul (A B : List (List ℂ)) (L : ℕ)
    (hA : ∀ r ∈ A, r.length = L) (hB : ∀ r ∈ B, r.length = L) :
    ∀ r ∈ List.zipWith (fun r s => List.zipWith (fun x y => x * y) r s) A B,
      r.length = L := by
  intro r hr
  rw [List.mem_iff_getElem] at hr
  obtain ⟨i, hi, hr⟩ := hr
  have hiA : i < A.length := by simp at hi; omega
  have hiB : i < B.length := by simp at hi; omega
  rw [List.getElem_zipWith] at hr
  rw [← hr]
  simp [hA (A[i]) (List.getElem_mem hiA), hB (B[i]) (List.getElem_mem hiB)]

theorem all_rows_len (A : List (List ℂ)) (L : ℕ)
    (hA : ∀ r ∈ A, r.length = L) (v : List ℂ) (hv : v.length = L) :
    (A.all fun r => r.length == v.length) = true := by
  rw [List.all_eq_true]
  intro r hr
  simp [hA r hr, hv]

theorem alphaTerm_len (ls : List ℤ) : (alphaTerm ls).length = ls.length := by
  simp [alphaTerm]

/-- Normal form of the 1-D far-branch `scatter_matrix` when the canvas and
Legendre stacks have equal length (even `res >= 2`, or the degenerate
`res <= 1`). -/
theorem scatter_matrix_far1_ok (S : SpecialFns) (res : ℕ)
    (fov z a lambDa : ℝ) (k_dir : ℝ × ℝ × ℝ)
    (hlen : min ((res + 1) / 2 + 1) res = min (res / 2 + 1) res) :
    ∃ M, scatter_matrix S res fov z a lambDa 1 ("far") k_dir
        = Except.ok (.one M)
      ∧ M.length = min ((res + 1) / 2 + 1) res
      ∧ ∀ row ∈ M, row.length = (get_order a lambDa).length := by
  classical
  set l := get_order a lambDa with hl
  set kr := (horizontal_canvas1 res fov z).map
    (fun r => 2 * Real.pi / lambDa * r) with hkr
  set H := kr.map (fun (xv : ℝ) => l.map fun (li : ℤ) =>
    Complex.exp (Complex.I * ((xv : ℂ) - (li : ℂ) * (Real.pi : ℂ) / 2))
      / (Complex.I * (xv : ℂ))) with hH
  set P := asymptotic_legendre1 S res fov l with hP
  set PC := P.map (fun r => r.map fun (x : ℝ) => (x : ℂ)) with hPC
  have hHlen : H.length = min ((res + 1) / 2 + 1) res := by
    rw [hH, List.length_map, hkr, List.length_map, horizontal_canvas1_len]
  have hPClen : PC.length = min (res / 2 + 1) res := by
    rw [hPC, List.length_map, hP, asymptotic_legendre1_len]
  have hHrows : ∀ r ∈ H, r.length = l.length := by
    intro r hr
    rw [hH] at hr
    simp only [List.mem_map] at hr
    obtain ⟨xv, -, hr⟩ := hr
    rw [← hr, List.length_map]
  have hPCrows : ∀ r ∈ PC, r.length = l.length := by
    intro r hr
    rw [hPC] at hr
    simp only [List.mem_map] at hr
    obtain ⟨r0, hr0, hr⟩ := hr
    rw [← hr, List.length_map]
    exact asymptotic_legendre1_rows S res fov l r0 hr0
  have hguard : H.length = PC.length ∧ rowsMatch H PC = true :=
    ⟨by rw [hHlen, hPClen, hlen], rowsMatch_of H PC l.length hHrows hPCrows⟩
  set prod := List.zipWith
    (fun r s => List.zipWith (fun x y => x * y) r s) H PC with hprod
  have hprodrows : ∀ r ∈ prod, r.length = l.length :=
    rows_len_zipWith_mul H PC l.length hHrows hPCrows
  have hguard2 : (prod.all fun r => r.length == (alphaTerm l).length) = true :=
    all_rows_len prod l.length hprodrows (alphaTerm l) (alphaTerm_len l)
  have hcv : horizontal_canvas res fov z 1
      = Except.ok (Canvas.one (horizontal_canvas1 res fov z)) := by
    simp [horizontal_canvas]
  have hleg : asymptotic_legendre S res fov l 1 = Except.ok (RTensor.one P) := by
    simp [asymptotic_legendre, hP]
  have hsc : scaleCanvas (2 * Real.pi / lambDa)
      (Canvas.one (horizontal_canvas1 res fov z)) = Canvas.one kr := by
    simp [scaleCanvas, hkr]
  have hhk : asymptotic_hankel (Canvas.one kr) (.vector l)
      = Except.ok (TensorArr.one H) := by
    simp [asymptotic_hankel, hH]
  have htoc : RTensor.toC (RTensor.one P) = TensorArr.one PC := by
    simp [RTensor.toC, hPC]
  have htm : tmul (TensorArr.one H) (TensorArr.one PC)
      = Except.ok (TensorArr.one prod) := by
    simp only [tmul]
    unfold tmul1
    rw [if_pos hguard, except_map_ok, hprod]
  have hso : scaleOrders (TensorArr.one prod) (alphaTerm l)
      = Except.ok (TensorArr.one
          (prod.map fun r => List.zipWith (fun x y => x * y) r (alphaTerm l))) := by
    simp only [scaleOrders]
    rw [if_pos hguard2]
  refine ⟨prod.map (fun r => List.zipWith (fun x y => x * y) r (alphaTerm l)),
    ?_, ?_, ?_⟩
  · unfold scatter_matrix
    rw [← hl, hcv, except_bind_ok]
    simp only []
    rw [if_pos trivial]
    rw [hleg, except_bind_ok]
    rw [hsc, hhk, except_bind_ok]
    rw [htoc, except_pure_bind]
    rw [htm, except_bind_ok]
    rw [hso]
  · rw [List.length_map, hprod, List.length_zipWith, hHlen, hPClen, ← hlen,
      min_self]
  · intro row hrow
    simp only [List.mem_map] at hrow
    obtain ⟨r0, hr0, hrow⟩ := hrow
    rw [← hrow, List.length_zipWith, hprodrows r0 hr0, alphaTerm_len, min_self]

/-- The 1-D far-branch `scatter_matrix` fails on the numpy broadcast check
for odd `res >= 3`: the canvas stack has one more row than the Legendre
stack. -/
theorem scatter_matrix_far1_mismatch (S : SpecialFns) (res : ℕ)
    (fov z a lambDa : ℝ) (k_dir : ℝ × ℝ × ℝ)
    (hodd : res % 2 = 1) (h3 : 3 ≤ res) :
    scatter_matrix S res fov z a lambDa 1 ("far") k_dir
      = Except.error ("operands could not be broadcast together") := by
  classical
  set l := get_order a lambDa with hl
  set kr := (horizontal_canvas1 res fov z).map
    (fun r => 2 * Real.pi / lambDa * r) with hkr
  set H := kr.map (fun (xv : ℝ) => l.map fun (li : ℤ) =>
    Complex.exp (Complex.I * ((xv : ℂ) - (li : ℂ) * (Real.pi : ℂ) / 2))
      / (Complex.I * (xv : ℂ))) with hH
  set P := asymptotic_legendre1 S res fov l with hP
  set PC := P.map (fun r => r.map fun (x : ℝ) => (x : ℂ)) with hPC
  have hHlen : H.length = min ((res + 1) / 2 + 1) res := by
    rw [hH, List.length_map, hkr, List.length_map, horizontal_canvas1_len]
  have hPClen : PC.length = min (res / 2 + 1) res := by
    rw [hPC, List.length_map, hP, asymptotic_legendre1_len]
  have hne : ¬(H.length = PC.length ∧ rowsMatch H PC = true) := by
    intro hcontra
    have := hcontra.1
    rw [hHlen, hPClen] at this
    omega
  have hcv : horizontal_canvas res fov z 1
      = Except.ok (Canvas.one (horizontal_canvas1 res fov z)) := by
    simp [horizontal_canvas]
  have hleg : asymptotic_legendre S res fov l 1 = Except.ok (RTensor.one P) := by
    simp [asymptotic_legendre, hP]
  have hsc : scaleCanvas (2 * Real.pi / lambDa)
      (Canvas.one (horizontal_canvas1 res fov z)) = Canvas.one kr := by
    simp [scaleCanvas, hkr]
  have hhk : asymptotic_hankel (Canvas.one kr) (.vector l)
      = Except.ok (TensorArr.one H) := by
    simp [asymptotic_hankel, hH]
  have htoc : RTensor.toC (RTensor.one P) = TensorArr.one PC := by
    simp [RTensor.toC, hPC]
  have htm : tmul (TensorArr.one H) (TensorArr.one PC)
      = Except.error ("operands could not be broadcast together") := by
    simp only [tmul]
    unfold tmul1
    rw [if_neg hne, except_map_error]
  unfold scatter_matrix
  rw [← hl, hcv, except_bind_ok]
  simp only []
  rw [if_pos trivial]
  rw [hleg, except_bind_ok]
  rw [hsc, hhk, except_bind_ok]
  rw [htoc, except_pure_bind]
  rw [htm, except_bind_error]

theorem headD_map_range {β : Type} (n : ℕ) (g : ℕ → β) (d : β) (h : 0 < n) :
    ((List.range n).map g).headD d = g 0 := by
  cases n with
  | zero => omega
  | succ m =>
    rw [List.range_succ_eq_map]
    simp

/-- The 1-D bandpass filter is row 0 of the 2-D mask truncated to
`int(res/2)+1` samples. -/
theorem bandpass_filter1_len (res : ℕ) (fov NAin NAout : ℝ) (hres : 1 ≤ res) :
    ∃ bp, bandpass_filter res fov NAin NAout 1 = Except.ok (.one bp) ∧
      bp.length = min (res / 2 + 1) res := by
  refine ⟨((bandpass_filter2 res fov NAin NAout).headD []).take (res / 2 + 1),
    by simp [bandpass_filter], ?_⟩
  have hhead : (bandpass_filter2 res fov NAin NAout).headD ([] : List ℝ)
      = (List.range res).map (fun j =>
          if NAin ≤ Real.sqrt ((fftfreqAt res (fov / res) j) ^ 2
              + (fftfreqAt res (fov / res) 0) ^ 2)
            ∧ Real.sqrt ((fftfreqAt res (fov / res) j) ^ 2
              + (fftfreqAt res (fov / res) 0) ^ 2) ≤ NAout then 1 else 0) := by
    exact headD_map_range res _ _ (by omega)
  rw [hhead, List.length_take, List.length_map, List.length_range]

theorem getLast?_eq_getD (xs : List ℝ) (n : ℕ) (hxs : xs.length = n) (hn : 1 ≤ n) :
    xs.getLast? = some (xs.getD (n - 1) 0) := by
  have hlt : n - 1 < xs.length := by omega
  rw [List.getLast?_eq_getElem?, hxs, List.getElem?_eq_getElem hlt]
  simp [List.getD_eq_getElem?_getD, List.getElem?_eq_getElem hlt]

/-- `idhf` consumes its input and produces `F` and `F_x` of length
`int(res/2)` (one sample per Bessel zero); `fovN >= 2` avoids the source's
`ZeroDivisionError` at `X = int(fov/2) = 0`. -/
theorem idhf_lengths (S : SpecialFns) (res fovN : ℕ) (y : List ℂ)
    (hres : 2 ≤ res) (hfovN : 2 ≤ fovN)
    (hz : (S.j0Zeros (res / 2)).length = res / 2) :
    ∃ Fp, idhf S res fovN y = Except.ok Fp
      ∧ Fp.1.length = res / 2 ∧ Fp.2.length = res / 2 := by
  have hlast : (S.j0Zeros (res / 2)).getLast?
      = some ((S.j0Zeros (res / 2)).getD (res / 2 - 1) 0) :=
    getLast?_eq_getD _ _ hz (by omega)
  have hX : ¬(fovN / 2 = 0) := by omega
  simp only [idhf, hlast, if_neg hX]
  refine ⟨_, rfl, ?_, ?_⟩ <;> simp [hz]

/-- The 1-D `far_field` pipeline: scatter tensor contracted with the B
coefficients, scaled, returned unshifted. -/
theorem far_field1_ok (S : SpecialFns) (res : ℕ)
    (fov z a lambDa scale : ℝ) (nidx : ℂ)
    (hlen : min ((res + 1) / 2 + 1) res = min (res / 2 + 1) res) :
    ∃ v, far_field S res fov z a nidx lambDa scale 1 = Except.ok (.one v)
      ∧ v.length = min ((res + 1) / 2 + 1) res := by
  obtain ⟨M, hM, hMl, hMr⟩ :=
    scatter_matrix_far1_ok S res fov z a lambDa (0, 0, 0) hlen
  set l := get_order a lambDa with hl
  set B := coeff_b S l (2 * Real.pi / lambDa) nidx a with hB
  have hBlen : B.length = l.length := by
    rw [hB, coeff_b, List.length_map]
  have hguard : (M.all fun r => r.length == B.length) = true :=
    all_rows_len M l.length hMr B hBlen
  have hso : scaleOrders (TensorArr.one M) B
      = Except.ok (.one (M.map fun r => List.zipWith (fun x y => x * y) r B)) := by
    simp only [scaleOrders]
    rw [if_pos hguard]
  refine ⟨((M.map fun r => List.zipWith (fun x y => x * y) r B).map
      List.sum).map (fun c => c * (scale : ℂ)), ?_, ?_⟩
  · unfold far_field
    simp only []
    rw [← hl, ← hB, hM, except_bind_ok]
    rw [hso, except_bind_ok]
    rfl
  · simp [hMl]

/-- Claim C10, counterexample: at the odd resolution `res = 1` the 1-D
canvas and the 1-D Legendre stack both have exactly one sample (the canvas
does not have one more), and the far-branch `scatter_matrix` succeeds. -/
theorem odd_res_one_no_mismatch :
    (horizontal_canvas1 1 1 0).length = 1 ∧
    (asymptotic_legendre1 trivialFns 1 1 (get_order 1 1)).length = 1 ∧
    ¬((horizontal_canvas1 1 1 0).length
        = (asymptotic_legendre1 trivialFns 1 1 (get_order 1 1)).length + 1) ∧
    ∃ M, scatter_matrix trivialFns 1 1 0 1 1 1 ("far") (0, 0, 0)
        = Except.ok (.one M) := by
  have h1 : (horizontal_canvas1 1 1 0).length = 1 := by
    rw [horizontal_canvas1_len]
    decide
  have h2 : (asymptotic_legendre1 trivialFns 1 1 (get_order 1 1)).length = 1 := by
    rw [asymptotic_legendre1_len]
    decide
  refine ⟨h1, h2, by omega, ?_⟩
  obtain ⟨M, hM, -, -⟩ :=
    scatter_matrix_far1_ok trivialFns 1 1 0 1 1 (0, 0, 0) (by decide)
  exact ⟨M, hM⟩

/-- Claim C10 (amended: the even-resolution invariant asks `res >= 2`, and
the odd-resolution mismatch asks `res >= 3`; at the degenerate `res = 1` the
two stacks both have one sample and the product is well-formed): for even
`res >= 2` the 1-D canvas, the 1-D asymptotic Legendre stack and the 1-D
bandpass filter all have length `res/2+1`, the elementwise products in
`scatter_matrix` and `far_field` are well-formed (both succeed with 1-D
outputs of length `res/2+1`), and, for integer `fov >= 2` (`fov` in `{0,1}`
raises `ZeroDivisionError` in the source), `idhf` consumes a
length-`res/2+1` field
producing `F` and `F_x` of length `res/2`; for odd `res >= 3` the canvas has
one more sample than the Legendre stack and the far-branch 1-D
`scatter_matrix` contraction fails on the broadcast check. -/
theorem one_dim_shape_invariant (S : SpecialFns) (res fovN : ℕ)
    (fov z a lambDa scale NAin NAout : ℝ) (nidx : ℂ)
    (k_dir : ℝ × ℝ × ℝ) (y : List ℂ)
    (hz : (S.j0Zeros (res / 2)).length = res / 2)
    (hy : y.length = res / 2 + 1) (hfovN : 2 ≤ fovN) :
    (res % 2 = 0 → 2 ≤ res →
      (horizontal_canvas1 res fov z).length = res / 2 + 1 ∧
      (asymptotic_legendre1 S res fov (get_order a lambDa)).length = res / 2 + 1 ∧
      (∃ bp, bandpass_filter res fov NAin NAout 1 = Except.ok (.one bp) ∧
        bp.length = res / 2 + 1) ∧
      (∃ M, scatter_matrix S res fov z a lambDa 1 ("far") k_dir
          = Except.ok (.one M) ∧ M.length = res / 2 + 1) ∧
      (∃ v, far_field S res fov z a nidx lambDa scale 1 = Except.ok (.one v) ∧
        v.length = res / 2 + 1) ∧
      (∃ Fp, idhf S res fovN y = Except.ok Fp
        ∧ Fp.1.length = res / 2 ∧ Fp.2.length = res / 2)) ∧
    (res % 2 = 1 → 3 ≤ res →
      (horizontal_canvas1 res fov z).length
        = (asymptotic_legendre1 S res fov (get_order a lambDa)).length + 1 ∧
      scatter_matrix S res fov z a lambDa 1 ("far") k_dir
        = Except.error ("operands could not be broadcast together")) := by
  constructor
  · intro heven hres
    have hmin1 : min ((res + 1) / 2 + 1) res = res / 2 + 1 := by omega
    have hmin2 : min (res / 2 + 1) res = res / 2 + 1 := by omega
    have hlen : min ((res + 1) / 2 + 1) res = min (res / 2 + 1) res := by omega
    refine ⟨?_, ?_, ?_, ?_, ?_, ?_⟩
    · rw [horizontal_canvas1_len, hmin1]
    · rw [asymptotic_legendre1_len, hmin2]
    · obtain ⟨bp, hbp, hbpl⟩ :=
        bandpass_filter1_len res fov NAin NAout (by omega)
      exact ⟨bp, hbp, by rw [hbpl, hmin2]⟩
    · obtain ⟨M, hM, hMl, -⟩ :=
        scatter_matrix_far1_ok S res fov z a lambDa k_dir hlen
      exact ⟨M, hM, by rw [hMl, hmin1]⟩
    · obtain ⟨v, hv, hvl⟩ :=
        far_field1_ok S res fov z a lambDa scale nidx hlen
      exact ⟨v, hv, by rw [hvl, hmin1]⟩
    · exact idhf_lengths S res fovN y hres hfovN hz
  · intro hodd hres
    constructor
    · rw [horizontal_canvas1_len, asymptotic_legendre1_len]
      omega
    · exact scatter_matrix_far1_mismatch S res fov z a lambDa k_dir hodd hres

/-- Witness for C10 at `res = 4` with the trivial primitive record. -/
theorem one_dim_shape_invariant_witness :
    ((trivialFns.j0Zeros (4 / 2)).length = 4 / 2 ∧
      ([0, 0, 0] : List ℂ).length = 4 / 2 + 1 ∧ 2 ≤ 4) ∧
    ((4 % 2 = 0 → 2 ≤ 4 →
      (horizontal_canvas1 4 1 0).length = 4 / 2 + 1 ∧
      (asymptotic_legendre1 trivialFns 4 1 (get_order 1 1)).length = 4 / 2 + 1 ∧
      (∃ bp, bandpass_filter 4 1 0 1 1 = Except.ok (.one bp) ∧
        bp.length = 4 / 2 + 1) ∧
      (∃ M, scatter_matrix trivialFns 4 1 0 1 1 1 ("far") (0, 0, 0)
          = Except.ok (.one M) ∧ M.length = 4 / 2 + 1) ∧
      (∃ v, far_field trivialFns 4 1 0 1 1 1 1 1 = Except.ok (.one v) ∧
        v.length = 4 / 2 + 1) ∧
      (∃ Fp, idhf trivialFns 4 4 [0, 0, 0] = Except.ok Fp
        ∧ Fp.1.length = 4 / 2 ∧ Fp.2.length = 4 / 2)) ∧
    (4 % 2 = 1 → 3 ≤ 4 →
      (horizontal_canvas1 4 1 0).length
        = (asymptotic_legendre1 trivialFns 4 1 (get_order 1 1)).length + 1 ∧
      scatter_matrix trivialFns 4 1 0 1 1 1 ("far") (0, 0, 0)
        = Except.error ("operands could not be broadcast together"))) :=
  ⟨⟨by simp [trivialFns], by decide, by decide⟩,
    one_dim_shape_invariant trivialFns 4 4 1 0 1 1 1 0 1 1 (0, 0, 0) [0, 0, 0]
      (by simp [trivialFns]) (by decide) (by decide)⟩

/-! ### Claim C6: the FFT layer -/

theorem exp_neg_eq_char {n : ℕ} [NeZero n] (j k : ZMod n) :
    Complex.exp (-(2 * (Real.pi : ℂ) * Complex.I * ((j.val : ℂ) * (k.val : ℂ))) / n)
      = ZMod.stdAddChar (-(j * k)) := by
  have hcast : (((-(j.val * k.val : ℤ)) : ℤ) : ZMod n) = -(j * k) := by
    push_cast
    rw [ZMod.natCast_zmod_val, ZMod.natCast_zmod_val]
  rw [← hcast, ZMod.stdAddChar_coe]
  congr 1
  push_cast
  ring

theorem exp_pos_eq_char {n : ℕ} [NeZero n] (j k : ZMod n) :
    Complex.exp ((2 * (Real.pi : ℂ) * Complex.I * ((j.val : ℂ) * (k.val : ℂ))) / n)
      = ZMod.stdAddChar (j * k) := by
  have hcast : (((j.val * k.val : ℤ)) : ZMod n) = j * k := by
    push_cast
    rw [ZMod.natCast_zmod_val, ZMod.natCast_zmod_val]
  rw [← hcast, ZMod.stdAddChar_coe]
  congr 1
  push_cast
  ring

theorem fft1_eq_dft {n : ℕ} [NeZero n] (x : ZMod n → ℂ) (k : ZMod n) :
    fft1 x k = ZMod.dft x k := by
  rw [ZMod.dft_apply]
  unfold fft1
  refine Finset.sum_congr rfl fun j _ => ?_
  rw [exp_neg_eq_char, smul_eq_mul]

theorem ifft1_eq_invdft {n : ℕ} [NeZero n] (x : ZMod n → ℂ) (k : ZMod n) :
    ifft1 x k = ZMod.dft.symm x k := by
  rw [ZMod.invDFT_apply, smul_eq_mul]
  unfold ifft1
  congr 1
  refine Finset.sum_congr rfl fun j _ => ?_
  rw [exp_pos_eq_char, smul_eq_mul]

theorem fft1_ifft1 {n : ℕ} [NeZero n] (x : ZMod n → ℂ) (k : ZMod n) :
    fft1 (ifft1 x) k = x k := by
  have h : ifft1 x = ZMod.dft.symm x := funext (ifft1_eq_invdft x)
  rw [h, fft1_eq_dft]
  exact congrFun (ZMod.dft.apply_symm_apply x) k

theorem ifft2_swap {n : ℕ} [NeZero n] (F : ZMod n → ZMod n → ℂ) (a b : ZMod n) :
    ifft2 F a b = ifft1 (fun y => ifft1 (fun x => F x y) a) b := by
  unfold ifft2 ifft1
  simp only [Finset.mul_sum]
  rw [Finset.sum_comm]
  refine Finset.sum_congr rfl fun x _ => Finset.sum_congr rfl fun y _ => ?_
  ring

theorem fft2_ifft2 {n : ℕ} [NeZero n] (F : ZMod n → ZMod n → ℂ) (u v : ZMod n) :
    fft2 (ifft2 F) u v = F u v := by
  unfold fft2
  have h1 : (fun a => fft1 (ifft2 F a) v) = fun a => ifft1 (fun x => F x v) a := by
    funext a
    have h2 : ifft2 F a = ifft1 (fun y => ifft1 (fun x => F x y) a) :=
      funext (ifft2_swap F a)
    rw [h2, fft1_ifft1]
  rw [h1]
  exact fft1_ifft1 (fun x => F x v) u

theorem natCast_half_add_half {n : ℕ} (h : n % 2 = 0) :
    ((n / 2 : ℕ) : ZMod n) + ((n / 2 : ℕ) : ZMod n) = 0 := by
  rw [← Nat.cast_add]
  have h2 : n / 2 + n / 2 = n := by omega
  rw [h2, ZMod.natCast_self]

theorem ifftshift2_invol {n : ℕ} (h : n % 2 = 0) (F : ZMod n → ZMod n → ℂ) :
    ifftshift2 (ifftshift2 F) = F := by
  funext i j
  show F (i + _ + _) (j + _ + _) = F i j
  rw [add_assoc, add_assoc, natCast_half_add_half h, add_zero, add_zero]

theorem fftshift2_invol {n : ℕ} (h : n % 2 = 0) (F : ZMod n → ZMod n → ℂ) :
    fftshift2 (fftshift2 F) = F := by
  funext i j
  show F (i - _ - _) (j - _ - _) = F i j
  rw [sub_sub, sub_sub, natCast_half_add_half h, sub_zero, sub_zero]

/-- Claim C6 (amended: the round trip holds for even array sizes; for odd
sizes the shift pair `ifftshift . ifftshift` is a one-pixel translation, not
the identity, and the recovery fails -- see the counterexample): `far2near`
computes exactly `ifftshift(ifft2(fftshift(far_field)))`, and for every
even-size square complex array `F`, applying the matching forward transform
`fftshift(fft2(ifftshift(.)))` to `far2near F` recovers `F` exactly (standard
normalization, `1/N` on the inverse). -/
theorem far2near_def_and_roundtrip (n : ℕ) [NeZero n] (heven : n % 2 = 0)
    (F : ZMod n → ZMod n → ℂ) :
    far2near F = ifftshift2 (ifft2 (fftshift2 F)) ∧
    forward_transform (far2near F) = F := by
  refine ⟨rfl, ?_⟩
  unfold forward_transform far2near
  rw [ifftshift2_invol heven]
  have h2 : fft2 (ifft2 (fftshift2 F)) = fftshift2 F := by
    funext u v
    exact fft2_ifft2 _ u v
  rw [h2, fftshift2_invol heven]

/-- Witness for C6's amended theorem at `n = 2` on a concrete array. -/
theorem far2near_def_and_roundtrip_witness :
    (2 % 2 = 0) ∧
    (far2near (fun _ _ => (1 : ℂ))
        = ifftshift2 (ifft2 (fftshift2 (fun (_ _ : ZMod 2) => (1 : ℂ)))) ∧
     forward_transform (far2near (fun (_ _ : ZMod 2) => (1 : ℂ)))
        = fun _ _ => (1 : ℂ)) :=
  ⟨by decide, far2near_def_and_roundtrip 2 (by decide) (fun _ _ => (1 : ℂ))⟩

theorem fft1_smul {n : ℕ} [NeZero n] (c : ℂ) (x : ZMod n → ℂ) (k : ZMod n) :
    fft1 (fun j => c * x j) k = c * fft1 x k := by
  unfold fft1
  rw [Finset.mul_sum]
  exact Finset.sum_congr rfl fun j _ => by ring

theorem ifft1_const {n : ℕ} [NeZero n] (c : ℂ) (k : ZMod n) :
    ifft1 (fun _ => c) k = c * ifft1 (fun _ => (1 : ℂ)) k := by
  unfold ifft1
  rw [Finset.mul_sum, Finset.mul_sum, Finset.mul_sum]
  exact Finset.sum_congr rfl fun j _ => by ring

theorem ifft1_one {n : ℕ} [NeZero n] (k : ZMod n) :
    ifft1 (fun _ => (1 : ℂ)) k = if k = 0 then 1 else 0 := by
  have hdelta : (fun (_ : ZMod n) => (1 : ℂ))
      = ZMod.dft (fun j => if j = 0 then (1 : ℂ) else 0) := by
    funext k2
    rw [ZMod.dft_apply]
    rw [Finset.sum_eq_single 0]
    · simp
    · intro j _ hj
      simp [hj]
    · simp
  rw [ifft1_eq_invdft, hdelta, ZMod.dft.symm_apply_apply]

theorem ifft2_one {n : ℕ} [NeZero n] (a b : ZMod n) :
    ifft2 (fun _ _ => (1 : ℂ)) a b
      = (if b = 0 then (1 : ℂ) else 0) * (if a = 0 then 1 else 0) := by
  unfold ifft2
  have h1 : (fun a2 : ZMod n => ifft1 (fun _ => (1 : ℂ)) b)
      = fun _ : ZMod n => (if b = 0 then (1 : ℂ) else 0) := by
    funext a2
    rw [ifft1_one]
  rw [h1, ifft1_const, ifft1_one]

theorem fft1_delta {n : ℕ} [NeZero n] (c k : ZMod n) :
    fft1 (fun j => if j = c then (1 : ℂ) else 0) k
      = Complex.exp (-(2 * (Real.pi : ℂ) * Complex.I * ((c.val : ℂ) * (k.val : ℂ))) / n) := by
  unfold fft1
  rw [Finset.sum_eq_single c]
  · simp
  · intro j _ hj
    simp [hj]
  · simp

theorem exp_neg_eight_pi_third_ne_one :
    Complex.exp (-(8 * (Real.pi : ℂ) * Complex.I) / 3) ≠ 1 := by
  intro hone
  rw [Complex.exp_eq_one_iff] at hone
  obtain ⟨m, hm⟩ := hone
  have hpi : (Real.pi : ℂ) ≠ 0 := Complex.ofReal_ne_zero.mpr Real.pi_ne_zero
  have hI : Complex.I ≠ 0 := Complex.I_ne_zero
  have h2 : ((6 * m : ℤ) : ℂ) * ((Real.pi : ℂ) * Complex.I)
      = ((-8 : ℤ) : ℂ) * ((Real.pi : ℂ) * Complex.I) := by
    push_cast
    linear_combination -3 * hm
  have h3 : ((6 * m : ℤ) : ℂ) = ((-8 : ℤ) : ℂ) :=
    mul_right_cancel₀ (mul_ne_zero hpi hI) h2
  have h4 : (6 * m : ℤ) = -8 := Int.cast_injective h3
  omega

/-- Claim C6, counterexample: for the odd size `n = 3` and the all-ones
far field, the claimed forward transform `fftshift(fft2(ifftshift(.)))`
applied to `far2near F` gives `exp(-8*pi*i/3) /= 1 = F 0 0` at the origin:
the round-trip identity fails for odd sizes. -/
theorem far2near_roundtrip_claim_false :
    forward_transform (far2near (fun _ _ => (1 : ℂ))) (0 : ZMod 3) (0 : ZMod 3)
      ≠ (fun (_ _ : ZMod 3) => (1 : ℂ)) (0 : ZMod 3) (0 : ZMod 3) := by
  have c1 : ((3 / 2 : ℕ) : ZMod 3) = 1 := by decide
  have hfs : fftshift2 (fun _ _ => (1 : ℂ)) = fun (_ _ : ZMod 3) => (1 : ℂ) := rfl
  have h1 : ∀ i j : ZMod 3, far2near (fun _ _ => (1 : ℂ)) i j
      = ifft2 (fun _ _ => (1 : ℂ)) (i + 1) (j + 1) := by
    intro i j
    unfold far2near ifftshift2
    rw [hfs, c1]
  have hH : ifftshift2 (far2near (fun _ _ => (1 : ℂ)))
      = fun (a b : ZMod 3) => (if a + 2 = 0 then (1 : ℂ) else 0)
          * (if b + 2 = 0 then (1 : ℂ) else 0) := by
    funext a b
    unfold ifftshift2
    rw [c1, h1, ifft2_one]
    have e2 : (1 : ZMod 3) + 1 = 2 := by decide
    rw [add_assoc, add_assoc, e2]
    ring
  have hdel : (fun b : ZMod 3 => if b + 2 = 0 then (1 : ℂ) else 0)
      = fun b => if b = 1 then (1 : ℂ) else 0 := by
    have hiff : ∀ b : ZMod 3, (b + 2 = 0) ↔ (b = 1) := by decide
    funext b
    exact if_congr (hiff b) rfl rfl
  have hW : fft1 (fun b : ZMod 3 => if b + 2 = 0 then (1 : ℂ) else 0) 2
      = Complex.exp (-(4 * (Real.pi : ℂ) * Complex.I) / 3) := by
    rw [hdel, fft1_delta]
    congr 1
    rw [show ((1 : ZMod 3)).val = 1 from by decide,
      show ((2 : ZMod 3)).val = 2 from by decide]
    push_cast
    ring
  have houter : (fun a : ZMod 3 =>
        fft1 (fun b : ZMod 3 => (if a + 2 = 0 then (1 : ℂ) else 0)
          * (if b + 2 = 0 then (1 : ℂ) else 0)) 2)
      = fun a => Complex.exp (-(4 * (Real.pi : ℂ) * Complex.I) / 3)
          * (if a + 2 = 0 then (1 : ℂ) else 0) := by
    funext a
    rw [fft1_smul, hW]
    ring
  have hval : forward_transform (far2near (fun _ _ => (1 : ℂ)))
      (0 : ZMod 3) (0 : ZMod 3)
      = Complex.exp (-(8 * (Real.pi : ℂ) * Complex.I) / 3) := by
    unfold forward_transform fftshift2
    rw [hH, c1]
    rw [show (0 : ZMod 3) - 1 = 2 from by decide]
    unfold fft2
    rw [houter, fft1_smul, hW, ← Complex.exp_add]
    congr 1
    ring
  rw [hval]
  exact exp_neg_eight_pi_third_ne_one

end Chis
